import Mathlib

/-!
Verification development for the `sanger_rename` repository.

The Rust sources are shallowly embedded: filename strings are `List Char`
(`Str`), every byte index that the Rust code computes with `find` / `rfind`
on ASCII delimiters corresponds to the character index used here, and each
Rust method of `SangerFilename` (src/sanger_filename.rs) becomes a Lean
function of the same name.  Fallible operations return `Option` / `Except`.
-/

/-- Filename strings are modelled as lists of characters. -/
abbrev Str := List Char

/-- Index of the first occurrence of `c` in `s` (Rust `str::find`). -/
def findChar (s : Str) (c : Char) : Option Nat :=
  s.findIdx? (fun x => x == c)

/-- Index of the last occurrence of `c` in `s` (Rust `str::rfind`). -/
def rfindChar (s : Str) (c : Char) : Option Nat :=
  match (s.reverse).findIdx? (fun x => x == c) with
  | some i => some (s.length - 1 - i)
  | none => none

/-- `s[a..b]` of Rust: the characters at positions `a ≤ p < b`. -/
def strSlice (s : Str) (a b : Nat) : Str :=
  (s.take b).drop a

/-- The final path component: everything after the last `/`
(Rust `Path::file_name` on Unix, for paths whose last component is a
plain name). -/
def fileName (p : Str) : Str :=
  (p.reverse.takeWhile (fun c => c != '/')).reverse

/-- The leading directory part, trailing `/` included: everything up to and
including the last `/` (empty when the path has no `/`). -/
def dirName (p : Str) : Str :=
  (p.reverse.dropWhile (fun c => c != '/')).reverse

/-- Stem of a path component: the part before the last `.`, the whole
component when it has no `.` or starts with its only `.`
(Rust `Path::file_stem`). -/
def stemOfBase (b : Str) : Str :=
  match rfindChar b '.' with
  | some i => if i = 0 then b else b.take i
  | none => b

/-- Extension of a path component: the part after the last `.`, empty when
there is none (Rust `Path::extension` followed by `unwrap_or_default`). -/
def extOfBase (b : Str) : Str :=
  match rfindChar b '.' with
  | some i => if i = 0 then [] else b.drop (i + 1)
  | none => []

/-- Rust `Path::with_file_name`: replace the final component of `p` by
`name` (for paths whose final component is a plain name). -/
def withFileName (p : Str) (name : Str) : Str :=
  dirName p ++ name

/-- The paths on which `fileName` / `withFileName` agree with the Rust
`Path` methods: the final component is a plain name (not empty, `.`
or `..`). -/
def plainBaseName (p : Str) : Prop :=
  fileName p ≠ [] ∧ fileName p ≠ ['.'] ∧ fileName p ≠ ['.', '.']

instance (p : Str) : Decidable (plainBaseName p) := by
  unfold plainBaseName; infer_instance

/-- Calendar date, mirroring `time::Date` (year, month 1-12, day 1-31). -/
structure Date where
  year : Int
  month : Nat
  day : Nat
deriving DecidableEq

/-- Proleptic-Gregorian leap year rule used by the `time` crate. -/
def isLeapYear (y : Int) : Bool :=
  y % 4 == 0 && (y % 100 != 0 || y % 400 == 0)

/-- Number of days of month `m` in year `y`. -/
def daysInMonth (y : Int) (m : Nat) : Nat :=
  if m = 2 then (if isLeapYear y then 29 else 28)
  else if m = 4 ∨ m = 6 ∨ m = 9 ∨ m = 11 then 30
  else 31

/-- `time::Date::replace_month`: fails when the day is out of range for
the new month. -/
def Date.replace_month (d : Date) (m : Nat) : Option Date :=
  if 1 ≤ d.day ∧ d.day ≤ daysInMonth d.year m then some ⟨d.year, m, d.day⟩
  else none

/-- `time::Date::replace_year`: fails when the day is out of range for
the month in the new year (Feb 29 in a non-leap year). -/
def Date.replace_year (d : Date) (y : Int) : Option Date :=
  if 1 ≤ d.day ∧ d.day ≤ daysInMonth y d.month then some ⟨y, d.month, d.day⟩
  else none

/-- The calendar successor day (used for `Date + Duration` steps). -/
def Date.next_day (d : Date) : Date :=
  if d.day < daysInMonth d.year d.month then ⟨d.year, d.month, d.day + 1⟩
  else if d.month < 12 then ⟨d.year, d.month + 1, 1⟩
  else ⟨d.year + 1, 1, 1⟩

/-- The calendar predecessor day. -/
def Date.prev_day (d : Date) : Date :=
  if 1 < d.day then ⟨d.year, d.month, d.day - 1⟩
  else if 1 < d.month then ⟨d.year, d.month - 1, daysInMonth d.year (d.month - 1)⟩
  else ⟨d.year - 1, 12, 31⟩

/-- `date + n.days()` of the `time` crate, modelled day by day. -/
def Date.add_days : Date → Nat → Date
  | d, 0 => d
  | d, n + 1 => (d.next_day).add_days n

/-- `date - n.days()` of the `time` crate, modelled day by day. -/
def Date.sub_days : Date → Nat → Date
  | d, 0 => d
  | d, n + 1 => (d.prev_day).sub_days n

/-- `Vendor` enum of src/sanger_filename.rs. -/
inductive Vendor where
  | Sangon
  | Ruibio
  | Genewiz
deriving DecidableEq

/-- Rust `str::to_lowercase`, character by character.  For matching the
three pure-ASCII vendor names this agrees with the Unicode lowering the
Rust standard library performs. -/
def rustToLowercase (s : Str) : Str :=
  s.map Char.toLower

/-- `impl FromStr for Vendor` (src/sanger_filename.rs lines 11-22). -/
def vendorFromStr (s : Str) : Except Str Vendor :=
  if rustToLowercase s = ("sangon").toList then Except.ok Vendor.Sangon
  else if rustToLowercase s = ("ruibio").toList then Except.ok Vendor.Ruibio
  else if rustToLowercase s = ("genewiz").toList then Except.ok Vendor.Genewiz
  else Except.error (("Unknown vendor: ").toList ++ s)

/-- `SangerFilename` struct of src/sanger_filename.rs. -/
structure SangerFilename where
  filename : Str
  primer_name : Str
  template_name : Str
  date : Option Date
  vendor : Vendor
deriving DecidableEq

/-- `get_full_path` (returns the stored path). -/
def SangerFilename.get_full_path (f : SangerFilename) : Str :=
  f.filename

/-- `get_file_stem`: `Path::file_stem` of the full path. -/
def SangerFilename.get_file_stem (f : SangerFilename) : Str :=
  stemOfBase (fileName f.filename)

/-- `get_extension_name`: `Path::extension` of the full path,
defaulting to the empty string. -/
def SangerFilename.get_extension_name (f : SangerFilename) : Str :=
  extOfBase (fileName f.filename)

/-- `extract_sangon_template_name`: the text strictly between the first
`(` and the first `)` of the full raw filename, when the `)` comes
after the `(`. -/
def extract_sangon_template_name (filename : Str) : Str :=
  match findChar filename '(' with
  | some start =>
    match findChar filename ')' with
    | some stop => if start < stop then strSlice filename (start + 1) stop else []
    | none => []
  | none => []

/-- `extract_sangon_primer_name`: the text strictly between the first `[`
and the first `]` of the stem. -/
def extract_sangon_primer_name (filename : Str) : Str :=
  let filestem := stemOfBase (fileName filename)
  match findChar filestem '[' with
  | some start =>
    match findChar filestem ']' with
    | some stop => if start < stop then strSlice filestem (start + 1) stop else []
    | none => []
  | none => []

/-- `extract_sangon_vendor_id`: the 2nd `_`-separated token of the stem. -/
def extract_sangon_vendor_id (filename : Str) : Str :=
  let filestem := stemOfBase (fileName filename)
  let parts := filestem.splitOn '_'
  if 2 ≤ parts.length then parts.getD 1 [] else []

/-- `extract_ruibio_template_name`: everything before the first `.` of
the stem. -/
def extract_ruibio_template_name (filename : Str) : Str :=
  let filestem := stemOfBase (fileName filename)
  match findChar filestem '.' with
  | some first_dot => filestem.take first_dot
  | none => []

/-- `extract_ruibio_primer_name`: the 2nd `.`-separated token of the stem. -/
def extract_ruibio_primer_name (filename : Str) : Str :=
  let filestem := stemOfBase (fileName filename)
  let parts := filestem.splitOn '.'
  if 2 ≤ parts.length then parts.getD 1 [] else []

/-- `extract_ruibio_vendor_id`: the last two `.`-separated tokens of the
stem joined by `.`. -/
def extract_ruibio_vendor_id (filename : Str) : Str :=
  let filestem := stemOfBase (fileName filename)
  let parts := filestem.splitOn '.'
  if 3 ≤ parts.length then
    parts.getD (parts.length - 2) [] ++ '.' :: parts.getD (parts.length - 1) []
  else []

/-- `extract_genewiz_template_name`: locate the last `_` of the stem, the
last `-` before it; the template is the stem before that `-`. -/
def extract_genewiz_template_name (filename : Str) : Str :=
  let filestem := stemOfBase (fileName filename)
  match rfindChar filestem '_' with
  | some underscore_pos =>
    let before_underscore := filestem.take underscore_pos
    match rfindChar before_underscore '-' with
    | some dash_pos => filestem.take dash_pos
    | none => []
  | none => []

/-- `extract_genewiz_primer_name`: the stem text strictly between the last
`-` before the last `_` and that `_`. -/
def extract_genewiz_primer_name (filename : Str) : Str :=
  let filestem := stemOfBase (fileName filename)
  match rfindChar filestem '_' with
  | some underscore_pos =>
    let before_underscore := filestem.take underscore_pos
    match rfindChar before_underscore '-' with
    | some dash_pos => strSlice filestem (dash_pos + 1) underscore_pos
    | none => []
  | none => []

/-- `extract_genewiz_vendor_id`: the stem text after the last `_`. -/
def extract_genewiz_vendor_id (filename : Str) : Str :=
  let filestem := stemOfBase (fileName filename)
  match rfindChar filestem '_' with
  | some underscore_pos => filestem.drop (underscore_pos + 1)
  | none => []

/-- The vendor dispatch inside `get_template_name` (the `match self.vendor`
of src/sanger_filename.rs lines 107-111). -/
def SangerFilename.extracted_template_name (f : SangerFilename) : Str :=
  match f.vendor with
  | Vendor.Sangon => extract_sangon_template_name f.filename
  | Vendor.Ruibio => extract_ruibio_template_name f.filename
  | Vendor.Genewiz => extract_genewiz_template_name f.filename

/-- The vendor dispatch inside `get_primer_name` (lines 119-123). -/
def SangerFilename.extracted_primer_name (f : SangerFilename) : Str :=
  match f.vendor with
  | Vendor.Sangon => extract_sangon_primer_name f.filename
  | Vendor.Ruibio => extract_ruibio_primer_name f.filename
  | Vendor.Genewiz => extract_genewiz_primer_name f.filename

/-- `get_template_name`: the stored label when non-empty, otherwise the
vendor extraction. -/
def SangerFilename.get_template_name (f : SangerFilename) : Str :=
  if f.template_name = [] then f.extracted_template_name else f.template_name

/-- `get_primer_name`: the stored label when non-empty, otherwise the
vendor extraction. -/
def SangerFilename.get_primer_name (f : SangerFilename) : Str :=
  if f.primer_name = [] then f.extracted_primer_name else f.primer_name

/-- `set_primer_name` (always returns `Ok` in the source). -/
def SangerFilename.set_primer_name (f : SangerFilename) (primer_name : Str) : SangerFilename :=
  { f with primer_name := primer_name }

/-- `set_template_name` (always returns `Ok` in the source). -/
def SangerFilename.set_template_name (f : SangerFilename) (template_name : Str) : SangerFilename :=
  { f with template_name := template_name }

/-- `set_date` (always returns `Ok` in the source). -/
def SangerFilename.set_date (f : SangerFilename) (date : Date) : SangerFilename :=
  { f with date := some date }

/-- `get_vendor_id`: vendor dispatch, never cached. -/
def SangerFilename.get_vendor_id (f : SangerFilename) : Str :=
  match f.vendor with
  | Vendor.Sangon => extract_sangon_vendor_id f.filename
  | Vendor.Ruibio => extract_ruibio_vendor_id f.filename
  | Vendor.Genewiz => extract_genewiz_vendor_id f.filename

/-- `SangerFilename::new`: build with empty labels, then store the
extracted primer and template names. -/
def SangerFilename.new (filename : Str) (vendor : Vendor) : SangerFilename :=
  let s0 : SangerFilename :=
    { filename := filename, primer_name := [], template_name := [],
      date := none, vendor := vendor }
  let primer_name := s0.get_primer_name
  let template_name := s0.get_template_name
  (s0.set_primer_name primer_name).set_template_name template_name

/-- Rust `format!("{:02}", n)` for a natural number. -/
def fmtNat2 (n : Nat) : Str :=
  if n < 10 then '0' :: Nat.toDigits 10 n else Nat.toDigits 10 n

/-- Rust `format!("{:02}", n)` for an `i32` (the sign counts towards the
width, so negative values are never zero-padded to more than their
digits). -/
def fmtInt2 (n : Int) : Str :=
  if n < 0 then '-' :: Nat.toDigits 10 (-n).toNat else fmtNat2 n.toNat

/-- `get_standardized_name` (src/sanger_filename.rs lines 183-204).
`today` stands for the result of the `now_local` call used when no
capture date is set. -/
def SangerFilename.get_standardized_name (f : SangerFilename) (today : Date) : Str :=
  let date := f.date.getD today
  let template_name := f.get_template_name
  let primer_name := f.get_primer_name
  let date_str :=
    fmtInt2 (Int.tmod date.year 100) ++ fmtNat2 date.month ++ fmtNat2 date.day
  date_str ++ '.' :: template_name ++ '.' :: primer_name

/-- The destination path computed by `move_to_standardized_name`
(lines 168-176): the standardized name replaces the final path
component, then `.` and the original extension are appended. -/
def SangerFilename.standardized_path (f : SangerFilename) (today : Date) : Str :=
  withFileName f.filename (f.get_standardized_name today) ++ '.' :: f.get_extension_name

/-- Filesystem state for the rename model: the set of existing file paths,
plus the directories in which writes are denied.
Modelled from the spec: the spec's error taxonomy for `std::fs::rename`
(permission denied, source missing, destination collision), which the
repository only exercises through the OS. -/
structure FileSystem where
  files : List Str
  roDirs : List Str
deriving DecidableEq

/-- Modelled from the spec: `std::fs::rename` with the failure modes the
spec names — missing source, no write permission on the source or
destination directory, existing destination. -/
def fsRename (fs : FileSystem) (src dst : Str) : Except Str FileSystem :=
  if src ∈ fs.files then
    if dirName src ∈ fs.roDirs ∨ dirName dst ∈ fs.roDirs then
      Except.error (("permission denied").toList)
    else if dst ∈ fs.files ∧ dst ≠ src then
      Except.error (("destination collision").toList)
    else
      Except.ok { fs with files := dst :: fs.files.erase src }
  else Except.error (("source missing").toList)

/-- `move_to_standardized_name` (lines 167-181): compute the destination
path and rename the file, propagating any filesystem error. -/
def SangerFilename.move_to_standardized_name (f : SangerFilename) (today : Date)
    (fs : FileSystem) : Except Str FileSystem :=
  fsRename fs f.filename (f.standardized_path today)

/-- `SangerFilenames` registry (src/tui/common.rs). -/
structure SangerFilenames where
  filenames : List SangerFilename
deriving DecidableEq

/-- `SangerFilenames::add_filename` (src/tui/common.rs lines 32-40):
push unless an entry with the same full path already exists. -/
def SangerFilenames.add_filename (r : SangerFilenames) (f : SangerFilename) : SangerFilenames :=
  if ∃ g ∈ r.filenames, g.get_full_path = f.get_full_path then r
  else { r with filenames := r.filenames ++ [f] }

/-- The override map of the rename stages (`HashMap<String, Option<String>>`),
as an association list with `insert` replacing the stored value. -/
abbrev RenameMap := List (Str × Option Str)

/-- `HashMap::insert`: replace the value stored at `k`, appending a new
entry when `k` is absent. -/
def mapInsert (m : RenameMap) (k : Str) (v : Option Str) : RenameMap :=
  match m with
  | [] => [(k, v)]
  | (k', v') :: rest => if k' = k then (k, v) :: rest else (k', v') :: mapInsert rest k v

/-- `HashMap::get`. -/
def mapGet : RenameMap → Str → Option (Option Str)
  | [], _ => none
  | (k', v') :: rest, k => if k' = k then some v' else mapGet rest k

/-- `PrimerRenameStage::fill_names` (src/tui/primer_rename.rs lines 40-46):
seed the map with the current primer label of every registry entry. -/
def fill_names (m : RenameMap) (fns : List SangerFilename) : RenameMap :=
  fns.foldl (fun acc f => mapInsert acc f.get_primer_name none) m

/-- The commit branch of `PrimerRenameStage::handle_key`
(src/tui/primer_rename.rs lines 58-80): store `Some(buffer)` (or `None`
for an empty buffer) under the edited key, then walk every registry
entry and, when the whole updated map holds a committed override for the
entry's current primer label, overwrite that label. -/
def commitPrimerEdit (m : RenameMap) (key : Str) (buffer : Str)
    (fns : List SangerFilename) : RenameMap × List SangerFilename :=
  let new_name : Option Str := if buffer = [] then none else some buffer
  let m' := mapInsert m key new_name
  (m', fns.map (fun sanger_fn =>
    match mapGet m' sanger_fn.get_primer_name with
    | some (some new_name_str) => sanger_fn.set_primer_name new_name_str
    | _ => sanger_fn))

/-- `Stage` enum (src/tui/common.rs). -/
inductive Stage where
  | VendorSelection
  | PrimerRename
  | TemplateRename
  | DateSelection
  | ConfirmRename
deriving DecidableEq

/-- `StageTransition` enum (src/tui/common.rs). -/
inductive StageTransition where
  | Stay
  | Next (s : Stage)
  | Previous (s : Stage)
  | Quit
deriving DecidableEq

/-- The `crossterm` key codes the wizard reacts to. -/
inductive KeyCode where
  | Enter
  | Esc
  | Backspace
  | Tab
  | BackTab
  | Up
  | Down
  | Left
  | Right
  | Char (c : Char)
  | Other
deriving DecidableEq

/-- `crossterm` key event kinds. -/
inductive KeyEventKind where
  | Press
  | Release
deriving DecidableEq

/-- A key event: code plus kind. -/
structure KeyEvent where
  code : KeyCode
  kind : KeyEventKind
deriving DecidableEq

/-- `DateSelectionStage` state (src/tui/date_selection.rs). -/
structure DateSelectionStage where
  selected_date : Date
  sanger_fns : List SangerFilename
deriving DecidableEq

/-- `DateSelectionStage::next_month` (lines 81-90): January of the next
year after December, otherwise the next month; `none` models the
`unwrap` panic when the day is invalid in the target month. -/
def next_month (date : Date) : Option Date :=
  if date.month = 12 then
    (date.replace_month 1).bind (fun d => d.replace_year (date.year + 1))
  else date.replace_month (date.month + 1)

/-- `DateSelectionStage::prev_month` (lines 92-101). -/
def prev_month (date : Date) : Option Date :=
  if date.month = 1 then
    (date.replace_month 12).bind (fun d => d.replace_year (date.year - 1))
  else date.replace_month (date.month - 1)

/-- `DateSelectionStage::handle_key` (src/tui/date_selection.rs lines
40-79).  Non-press events are ignored; Esc/'q' quits; Enter stamps the
selected date on every registry entry; h/l and arrows step a day, j/k a
week; 'n'/Tab and 'p'/BackTab step a month.  Every arm returns `Stay`
except the quit arm; `none` models the `unwrap` panics of the month
arithmetic. -/
def DateSelectionStage.handle_key (s : DateSelectionStage) (key : KeyEvent) :
    Option (DateSelectionStage × StageTransition) :=
  if key.kind ≠ KeyEventKind.Press then some (s, StageTransition.Stay) else
  match key.code with
  | KeyCode.Esc => some (s, StageTransition.Quit)
  | KeyCode.Enter =>
    some ({ s with sanger_fns := s.sanger_fns.map (fun f => f.set_date s.selected_date) },
      StageTransition.Stay)
  | KeyCode.Left => some ({ s with selected_date := s.selected_date.sub_days 1 }, StageTransition.Stay)
  | KeyCode.Down => some ({ s with selected_date := s.selected_date.add_days 7 }, StageTransition.Stay)
  | KeyCode.Up => some ({ s with selected_date := s.selected_date.sub_days 7 }, StageTransition.Stay)
  | KeyCode.Right => some ({ s with selected_date := s.selected_date.add_days 1 }, StageTransition.Stay)
  | KeyCode.Tab =>
    (next_month s.selected_date).map (fun d => ({ s with selected_date := d }, StageTransition.Stay))
  | KeyCode.BackTab =>
    (prev_month s.selected_date).map (fun d => ({ s with selected_date := d }, StageTransition.Stay))
  | KeyCode.Char c =>
    if c = 'q' then some (s, StageTransition.Quit)
    else if c = 'h' then some ({ s with selected_date := s.selected_date.sub_days 1 }, StageTransition.Stay)
    else if c = 'j' then some ({ s with selected_date := s.selected_date.add_days 7 }, StageTransition.Stay)
    else if c = 'k' then some ({ s with selected_date := s.selected_date.sub_days 7 }, StageTransition.Stay)
    else if c = 'l' then some ({ s with selected_date := s.selected_date.add_days 1 }, StageTransition.Stay)
    else if c = 'n' then
      (next_month s.selected_date).map (fun d => ({ s with selected_date := d }, StageTransition.Stay))
    else if c = 'p' then
      (prev_month s.selected_date).map (fun d => ({ s with selected_date := d }, StageTransition.Stay))
    else some (s, StageTransition.Stay)
  | _ => some (s, StageTransition.Stay)

/-- Modelled from the spec: the batch commit of §4.5/§7 — the
ConfirmRename driver is not present under src/ (the stage is never
entered and nothing calls `move_to_standardized_name`), so the
per-entry loop follows the spec's words: each registry entry is moved
independently, a failure is recorded against that entry, and
processing continues with the remaining entries on the unchanged
filesystem. -/
def commitRegistry (today : Date) : FileSystem → List SangerFilename →
    List (SangerFilename × Except Str Unit) × FileSystem
  | fs, [] => ([], fs)
  | fs, f :: rest =>
    match f.move_to_standardized_name today fs with
    | Except.ok fs' =>
      let r := commitRegistry today fs' rest
      ((f, Except.ok ()) :: r.1, r.2)
    | Except.error e =>
      let r := commitRegistry today fs rest
      ((f, Except.error e) :: r.1, r.2)

lemma SangerFilename.new_eq (s : Str) (v : Vendor) :
    SangerFilename.new s v =
      { filename := s,
        primer_name := SangerFilename.extracted_primer_name ⟨s, [], [], none, v⟩,
        template_name := SangerFilename.extracted_template_name ⟨s, [], [], none, v⟩,
        date := none, vendor := v } := by
  rfl

lemma SangerFilename.get_template_name_new (s : Str) (v : Vendor) :
    (SangerFilename.new s v).get_template_name =
      SangerFilename.extracted_template_name ⟨s, [], [], none, v⟩ := by
  rw [SangerFilename.new_eq]
  unfold SangerFilename.get_template_name
  by_cases h : SangerFilename.extracted_template_name ⟨s, [], [], none, v⟩ = []
  · simp only [h, if_pos rfl]
    exact h
  · simp [h]

lemma SangerFilename.get_primer_name_new (s : Str) (v : Vendor) :
    (SangerFilename.new s v).get_primer_name =
      SangerFilename.extracted_primer_name ⟨s, [], [], none, v⟩ := by
  rw [SangerFilename.new_eq]
  unfold SangerFilename.get_primer_name
  by_cases h : SangerFilename.extracted_primer_name ⟨s, [], [], none, v⟩ = []
  · simp only [h, if_pos rfl]
    exact h
  · simp [h]

/-- Specification-side Genewiz template rule, following the claim's words:
`u` the position of the last `_` in the stem, `d` the position of the
last `-` in the stem substring before `u`; the template is the stem
substring before `d`; empty when a delimiter is absent. -/
def genewizTemplateNameOfSpec (s : Str) : Str :=
  let stem := stemOfBase (fileName s)
  match rfindChar stem '_' with
  | some u =>
    match rfindChar (stem.take u) '-' with
    | some d => stem.take d
    | none => []
  | none => []

/-- Specification-side Genewiz primer rule: the stem substring strictly
between `d` and `u`. -/
def genewizPrimerNameOfSpec (s : Str) : Str :=
  let stem := stemOfBase (fileName s)
  match rfindChar stem '_' with
  | some u =>
    match rfindChar (stem.take u) '-' with
    | some d => strSlice stem (d + 1) u
    | none => []
  | none => []

/-- Specification-side Genewiz vendor-id rule: the stem substring after
the last `_`. -/
def genewizVendorIdOfSpec (s : Str) : Str :=
  let stem := stemOfBase (fileName s)
  match rfindChar stem '_' with
  | some u => stem.drop (u + 1)
  | none => []

/-- C2: for every filename string decomposed with vendor Genewiz, the
template is the stem before the last `-` preceding the last `_`, the
primer is the stem strictly between that `-` and that `_`, and the
vendor id is the stem after the last `_`; each field is empty when its
delimiters are absent. -/
theorem genewiz_decomposition_follows_spec (s : Str) :
    (SangerFilename.new s Vendor.Genewiz).get_template_name = genewizTemplateNameOfSpec s ∧
    (SangerFilename.new s Vendor.Genewiz).get_primer_name = genewizPrimerNameOfSpec s ∧
    (SangerFilename.new s Vendor.Genewiz).get_vendor_id = genewizVendorIdOfSpec s := by
  refine ⟨?_, ?_, ?_⟩
  · rw [SangerFilename.get_template_name_new]; rfl
  · rw [SangerFilename.get_primer_name_new]; rfl
  · rw [SangerFilename.new_eq]; rfl

/-- Specification-side Sangon template rule, following the claim's words:
the substring of the full raw filename strictly after the first `(`
and strictly before the first `)`; empty when a delimiter is absent. -/
def sangonTemplateNameOfSpec (s : Str) : Str :=
  match findChar s '(' with
  | some i =>
    match findChar s ')' with
    | some j => strSlice s (i + 1) j
    | none => []
  | none => []

/-- Specification-side Sangon primer rule: the stem substring strictly
between the first `[` and the first `]`. -/
def sangonPrimerNameOfSpec (s : Str) : Str :=
  let stem := stemOfBase (fileName s)
  match findChar stem '[' with
  | some i =>
    match findChar stem ']' with
    | some j => strSlice stem (i + 1) j
    | none => []
  | none => []

/-- Specification-side Sangon vendor-id rule: the 2nd token of the stem
split on `_`; empty when there are fewer than two tokens. -/
def sangonVendorIdOfSpec (s : Str) : Str :=
  let parts := (stemOfBase (fileName s)).splitOn '_'
  if 2 ≤ parts.length then parts.getD 1 [] else []

lemma strSlice_of_le {s : Str} {a b : Nat} (h : b ≤ a) : strSlice s a b = [] := by
  unfold strSlice
  refine List.drop_eq_nil_of_le ?_
  calc (s.take b).length ≤ b := by simp
    _ ≤ a := h

lemma bracket_extract_eq (t : Str) (a b : Char) :
    (match findChar t a with
     | some start =>
       match findChar t b with
       | some stop => if start < stop then strSlice t (start + 1) stop else []
       | none => []
     | none => []) =
    (match findChar t a with
     | some i =>
       match findChar t b with
       | some j => strSlice t (i + 1) j
       | none => []
     | none => []) := by
  cases findChar t a with
  | none => rfl
  | some i =>
    cases findChar t b with
    | none => rfl
    | some j =>
      by_cases h : i < j
      · simp [h]
      · simp only [if_neg h]
        rw [strSlice_of_le (by omega)]

/-- C3: for every filename string decomposed with vendor Sangon, the
template is the text strictly between the first `(` and the first `)`
of the full raw filename, the primer the text strictly between the
first `[` and the first `]` of the stem, and the vendor id the 2nd
`_`-token of the stem; each field is empty when its delimiters cannot
be found. -/
theorem sangon_decomposition_follows_spec (s : Str) :
    (SangerFilename.new s Vendor.Sangon).get_template_name = sangonTemplateNameOfSpec s ∧
    (SangerFilename.new s Vendor.Sangon).get_primer_name = sangonPrimerNameOfSpec s ∧
    (SangerFilename.new s Vendor.Sangon).get_vendor_id = sangonVendorIdOfSpec s := by
  refine ⟨?_, ?_, ?_⟩
  · rw [SangerFilename.get_template_name_new]
    show extract_sangon_template_name s = sangonTemplateNameOfSpec s
    unfold extract_sangon_template_name sangonTemplateNameOfSpec
    exact bracket_extract_eq s '(' ')'
  · rw [SangerFilename.get_primer_name_new]
    show extract_sangon_primer_name s = sangonPrimerNameOfSpec s
    unfold extract_sangon_primer_name sangonPrimerNameOfSpec
    exact bracket_extract_eq (stemOfBase (fileName s)) '[' ']'
  · rw [SangerFilename.new_eq]; rfl

lemma fmtInt2_ofNat (m : Nat) : fmtInt2 (Int.ofNat m) = fmtNat2 m := by
  unfold fmtInt2
  split
  · next h => exact absurd h (Int.not_lt.mpr (Int.ofNat_nonneg m))
  · simp

lemma tmod_hundred_ofNat {y : Int} (h : 0 ≤ y) :
    Int.tmod y 100 = Int.ofNat (y.toNat % 100) := by
  obtain ⟨m, rfl⟩ := Int.eq_ofNat_of_zero_le h
  rfl

def c4File : SangerFilename :=
  (SangerFilename.new (("0001_31225060307072_(TXPCR)_[SP1].ab1").toList) Vendor.Sangon).set_date
    ⟨2025, 6, 1⟩

/-- C4: when the capture date is set to `d` (with a common-era year), the
standardized name is exactly `{yy}{mm}{dd}.{template}.{primer}` — the
year modulo 100 and the zero-padded month and day, then the current
template and primer labels — with no extension appended.  The right-hand
side does not mention `today` (the environment's clock), so the result
is deterministic and independent of filesystem state. -/
theorem get_standardized_name_formats_date (f : SangerFilename) (d : Date) (today : Date)
    (hd : f.date = some d) (hy : 0 ≤ d.year) :
    f.get_standardized_name today =
      fmtNat2 (d.year.toNat % 100) ++ fmtNat2 d.month ++ fmtNat2 d.day ++
        '.' :: f.get_template_name ++ '.' :: f.get_primer_name := by
  unfold SangerFilename.get_standardized_name
  rw [hd]
  simp only [Option.getD_some]
  rw [tmod_hundred_ofNat hy, fmtInt2_ofNat]

/-- Witness for C4 at the Sangon test file with date 2025-06-01; the
resulting name is the `250601.TXPCR.SP1` of the repository's test. -/
theorem get_standardized_name_formats_date_witness :
    (c4File.get_standardized_name ⟨2030, 1, 2⟩ =
      fmtNat2 ((2025 : Int).toNat % 100) ++ fmtNat2 6 ++ fmtNat2 1 ++
        '.' :: c4File.get_template_name ++ '.' :: c4File.get_primer_name) ∧
    c4File.get_standardized_name ⟨2030, 1, 2⟩ = ("250601.TXPCR.SP1").toList := by
  refine ⟨get_standardized_name_formats_date c4File ⟨2025, 6, 1⟩ ⟨2030, 1, 2⟩ rfl (by decide), ?_⟩
  decide

/-- C8: string-to-vendor parsing succeeds exactly on case-insensitive
matches of the three vendor names, mapping each to its vendor, and
rejects anything else with an "unknown vendor" error; a rejected string
yields no vendor (and hence no decomposition). -/
theorem vendor_from_str_spec (s : Str) :
    (vendorFromStr s = Except.ok Vendor.Sangon ↔ rustToLowercase s = ("sangon").toList) ∧
    (vendorFromStr s = Except.ok Vendor.Ruibio ↔ rustToLowercase s = ("ruibio").toList) ∧
    (vendorFromStr s = Except.ok Vendor.Genewiz ↔ rustToLowercase s = ("genewiz").toList) ∧
    (rustToLowercase s ≠ ("sangon").toList →
      rustToLowercase s ≠ ("ruibio").toList →
      rustToLowercase s ≠ ("genewiz").toList →
      vendorFromStr s = Except.error (("Unknown vendor: ").toList ++ s)) := by
  unfold vendorFromStr
  split_ifs with h1 h2 h3 <;> simp_all

/-- Witness for C8: a mixed-case vendor name is accepted and the test's
"unknown" string is rejected with the exact error text. -/
theorem vendor_from_str_spec_witness :
    vendorFromStr (("GenEwiz").toList) = Except.ok Vendor.Genewiz ∧
    vendorFromStr (("unknown").toList) =
      Except.error (("Unknown vendor: ").toList ++ ("unknown").toList) :=
  ⟨(vendor_from_str_spec (("GenEwiz").toList)).2.2.1.mpr (by decide),
   (vendor_from_str_spec (("unknown").toList)).2.2.2 (by decide) (by decide) (by decide)⟩

/-- C9: adding a filename whose full path is already present leaves the
registry unchanged; hence adding the same path twice is idempotent, the
entry stays at its first-insertion position, and — starting from a
registry without that path — exactly one entry with that path exists
afterwards. -/
theorem add_filename_dedup (r : SangerFilenames) (f : SangerFilename) :
    ((∃ g ∈ r.filenames, g.get_full_path = f.get_full_path) → r.add_filename f = r) ∧
    ((r.add_filename f).add_filename f = r.add_filename f) ∧
    ((¬ ∃ g ∈ r.filenames, g.get_full_path = f.get_full_path) →
      (r.add_filename f).filenames = r.filenames ++ [f] ∧
      (r.add_filename f).filenames.filter
        (fun g => g.get_full_path == f.get_full_path) = [f]) := by
  refine ⟨?_, ?_, ?_⟩
  · intro h
    unfold SangerFilenames.add_filename
    rw [if_pos h]
  · by_cases h : ∃ g ∈ r.filenames, g.get_full_path = f.get_full_path
    · unfold SangerFilenames.add_filename
      rw [if_pos h, if_pos h]
    · have h1 : r.add_filename f = { r with filenames := r.filenames ++ [f] } := by
        unfold SangerFilenames.add_filename
        rw [if_neg h]
      rw [h1]
      unfold SangerFilenames.add_filename
      rw [if_pos ⟨f, by simp, rfl⟩]
  · intro h
    have h1 : (r.add_filename f).filenames = r.filenames ++ [f] := by
      unfold SangerFilenames.add_filename
      rw [if_neg h]
    refine ⟨h1, ?_⟩
    rw [h1, List.filter_append]
    have h2 : r.filenames.filter (fun g => g.get_full_path == f.get_full_path) = [] := by
      rw [List.filter_eq_nil_iff]
      intro g hg
      simp only [beq_iff_eq]
      intro hpath
      exact h ⟨g, hg, hpath⟩
    rw [h2]
    simp

/-- Witness for C9 on a two-entry registry and a duplicate of the first
entry's path. -/
theorem add_filename_dedup_witness :
    ((SangerFilenames.mk [SangerFilename.new (("a[A].ab1").toList) Vendor.Sangon]).add_filename
        (SangerFilename.new (("a[A].ab1").toList) Vendor.Ruibio) =
      SangerFilenames.mk [SangerFilename.new (("a[A].ab1").toList) Vendor.Sangon]) ∧
    ((SangerFilenames.mk []).add_filename
        (SangerFilename.new (("a[A].ab1").toList) Vendor.Sangon)).filenames.filter
      (fun g => g.get_full_path == (SangerFilename.new (("a[A].ab1").toList) Vendor.Sangon).get_full_path) =
      [SangerFilename.new (("a[A].ab1").toList) Vendor.Sangon] :=
  ⟨(add_filename_dedup (SangerFilenames.mk [SangerFilename.new (("a[A].ab1").toList) Vendor.Sangon])
      (SangerFilename.new (("a[A].ab1").toList) Vendor.Ruibio)).1 (by decide),
   ((add_filename_dedup (SangerFilenames.mk [])
      (SangerFilename.new (("a[A].ab1").toList) Vendor.Sangon)).2.2 (by decide)).2⟩

def c10File : SangerFilename :=
  SangerFilename.new (("0001_31225060307072_(TXPCR)_[SP1].ab1").toList) Vendor.Sangon

/-- Counterexample to C10: after `set_primer_name("")`, `get_primer_name`
does not return the stored empty string — it falls back to the vendor
extraction and returns `SP1`. -/
theorem set_get_primer_empty_counterexample :
    (c10File.set_primer_name []).get_primer_name = ("SP1").toList ∧
    ("SP1").toList ≠ ([] : Str) := by
  decide

/-- C10 (amended): setting a non-empty label is read back verbatim by the
next getter, for the primer and the template alike; setting the empty
string makes the getter fall back to the vendor extraction from the
path, so the empty string is not read back unless the extraction is
itself empty. -/
theorem set_get_label_roundtrip (f : SangerFilename) (s : Str) :
    (s ≠ [] →
      (f.set_primer_name s).get_primer_name = s ∧
      (f.set_template_name s).get_template_name = s) ∧
    (f.set_primer_name []).get_primer_name =
      (f.set_primer_name []).extracted_primer_name ∧
    (f.set_template_name []).get_template_name =
      (f.set_template_name []).extracted_template_name := by
  refine ⟨fun hs => ⟨?_, ?_⟩, ?_, ?_⟩
  · unfold SangerFilename.get_primer_name SangerFilename.set_primer_name
    simp [hs]
  · unfold SangerFilename.get_template_name SangerFilename.set_template_name
    simp [hs]
  · unfold SangerFilename.get_primer_name SangerFilename.set_primer_name
    simp
  · unfold SangerFilename.get_template_name SangerFilename.set_template_name
    simp

/-- Witness for C10 (amended) at the Sangon test file and the label `X`. -/
theorem set_get_label_roundtrip_witness :
    ((c10File.set_primer_name (("X").toList)).get_primer_name = ("X").toList ∧
      (c10File.set_template_name (("X").toList)).get_template_name = ("X").toList) ∧
    (c10File.set_primer_name []).get_primer_name =
      (c10File.set_primer_name []).extracted_primer_name :=
  ⟨(set_get_label_roundtrip c10File (("X").toList)).1 (by decide),
   (set_get_label_roundtrip c10File (("X").toList)).2.1⟩

def c1File1 : SangerFilename := SangerFilename.new (("a[A].ab1").toList) Vendor.Sangon

def c1File2 : SangerFilename := SangerFilename.new (("b[B].ab1").toList) Vendor.Sangon

/-- Override map after entering the primer stage over the two files with
primer labels `A` and `B`. -/
def c1Map0 : RenameMap := fill_names [] [c1File1, c1File2]

/-- First commit: override `B` by `Q`. -/
def c1Step1 : RenameMap × List SangerFilename :=
  commitPrimerEdit c1Map0 (("B").toList) (("Q").toList) [c1File1, c1File2]

/-- Second commit: override `A` by `B`. -/
def c1Step2 : RenameMap × List SangerFilename :=
  commitPrimerEdit c1Step1.1 (("A").toList) (("B").toList) c1Step1.2

/-- Third commit: key `A`, buffer `B` again. -/
def c1Step3 : RenameMap × List SangerFilename :=
  commitPrimerEdit c1Step2.1 (("A").toList) (("B").toList) c1Step2.2

/-- Counterexample to C1: before the third commit the registry labels are
`[B, Q]`; committing key `A` with the non-empty buffer `B` turns them
into `[Q, Q]` — the first entry, whose current label `B` differs from
the edited key `A`, is changed (its label `B` hits the previously
committed `B -> Q` override still stored in the map). -/
theorem commit_override_cross_key_counterexample :
    (("B").toList ≠ ([] : Str)) ∧
    (("B").toList ≠ ("A").toList) ∧
    c1Step2.2.map SangerFilename.get_primer_name = [("B").toList, ("Q").toList] ∧
    c1Step3.2.map SangerFilename.get_primer_name = [("Q").toList, ("Q").toList] := by
  decide

lemma mapGet_mapInsert_self (m : RenameMap) (k : Str) (v : Option Str) :
    mapGet (mapInsert m k v) k = some v := by
  induction m with
  | nil => simp [mapInsert, mapGet]
  | cons kv rest ih =>
    obtain ⟨k', v'⟩ := kv
    unfold mapInsert
    by_cases h : k' = k
    · simp [h, mapGet]
    · simp [h, mapGet, ih]

lemma mem_zip_map_self {α β : Type} (g : α → β) (l : List α) (pr : α × β)
    (h : pr ∈ l.zip (l.map g)) : pr.2 = g pr.1 := by
  induction l with
  | nil => simp at h
  | cons x xs ih =>
    rw [List.map_cons, List.zip_cons_cons, List.mem_cons] at h
    rcases h with h | h
    · rw [h]
    · exact ih h

lemma get_primer_name_set_nonempty (f : SangerFilename) {s : Str} (hs : s ≠ []) :
    (f.set_primer_name s).get_primer_name = s := by
  unfold SangerFilename.get_primer_name SangerFilename.set_primer_name
  simp [hs]

/-- C1 (amended): committing a non-empty buffer for key `X` stores
`X -> Some(buffer)` and then rewrites every registry entry according to
the whole updated map: an entry whose current label equals `X` receives
the buffer, an entry whose current label has no committed override in
the map is unchanged, and an entry whose current label equals a
different key with a previously committed override receives that
override instead. -/
theorem commit_override_propagates (m : RenameMap) (key buffer : Str)
    (fns : List SangerFilename) (hb : buffer ≠ []) :
    (commitPrimerEdit m key buffer fns).1 = mapInsert m key (some buffer) ∧
    (commitPrimerEdit m key buffer fns).2.length = fns.length ∧
    ∀ pr ∈ fns.zip (commitPrimerEdit m key buffer fns).2,
      (pr.1.get_primer_name = key → pr.2.get_primer_name = buffer) ∧
      (mapGet (mapInsert m key (some buffer)) pr.1.get_primer_name = none → pr.2 = pr.1) ∧
      (mapGet (mapInsert m key (some buffer)) pr.1.get_primer_name = some none → pr.2 = pr.1) ∧
      (∀ v, mapGet (mapInsert m key (some buffer)) pr.1.get_primer_name = some (some v) →
        pr.2 = pr.1.set_primer_name v) := by
  have e : commitPrimerEdit m key buffer fns =
      (mapInsert m key (some buffer), fns.map (fun sf =>
        match mapGet (mapInsert m key (some buffer)) sf.get_primer_name with
        | some (some v) => sf.set_primer_name v
        | _ => sf)) := by
    unfold commitPrimerEdit
    simp only [if_neg hb]
  rw [e]
  refine ⟨rfl, List.length_map _ _, ?_⟩
  intro pr hpr
  dsimp only at hpr
  have h2 := mem_zip_map_self _ _ _ hpr
  rw [h2]
  refine ⟨?_, ?_, ?_, fun v hv => ?_⟩
  · intro hk
    have hs : mapGet (mapInsert m key (some buffer)) pr.1.get_primer_name =
        some (some buffer) := by
      rw [hk]; exact mapGet_mapInsert_self m key (some buffer)
    simp only [hs]
    exact get_primer_name_set_nonempty pr.1 hb
  · intro h0
    simp only [h0]
  · intro h1
    simp only [h1]
  · simp only [hv]

/-- Witness for C1 (amended) at a single-entry registry with label `A`,
committing `A -> B` over the empty override map. -/
theorem commit_override_propagates_witness :
    (commitPrimerEdit [] (("A").toList) (("B").toList) [c1File1]).1 =
      mapInsert [] (("A").toList) (some (("B").toList)) ∧
    (commitPrimerEdit [] (("A").toList) (("B").toList) [c1File1]).2.length =
      [c1File1].length ∧
    ∀ pr ∈ [c1File1].zip (commitPrimerEdit [] (("A").toList) (("B").toList) [c1File1]).2,
      (pr.1.get_primer_name = ("A").toList → pr.2.get_primer_name = ("B").toList) ∧
      (mapGet (mapInsert [] (("A").toList) (some (("B").toList))) pr.1.get_primer_name = none →
        pr.2 = pr.1) ∧
      (mapGet (mapInsert [] (("A").toList) (some (("B").toList))) pr.1.get_primer_name =
          some none → pr.2 = pr.1) ∧
      (∀ v, mapGet (mapInsert [] (("A").toList) (some (("B").toList))) pr.1.get_primer_name =
          some (some v) → pr.2 = pr.1.set_primer_name v) :=
  commit_override_propagates [] (("A").toList) (("B").toList) [c1File1] (by decide)

/-- Counterexample to C7: in the DateSelection stage, Tab steps the
selected date to the next month and BackTab to the previous month,
both returning `Stay` — neither advances to ConfirmRename nor retreats
to TemplateRename. -/
theorem date_selection_tab_counterexample :
    (DateSelectionStage.handle_key ⟨⟨2025, 6, 15⟩, []⟩ ⟨KeyCode.Tab, KeyEventKind.Press⟩ =
      some (⟨⟨2025, 7, 15⟩, []⟩, StageTransition.Stay)) ∧
    (DateSelectionStage.handle_key ⟨⟨2025, 6, 15⟩, []⟩ ⟨KeyCode.BackTab, KeyEventKind.Press⟩ =
      some (⟨⟨2025, 5, 15⟩, []⟩, StageTransition.Stay)) ∧
    StageTransition.Stay ≠ StageTransition.Next Stage.ConfirmRename ∧
    StageTransition.Stay ≠ StageTransition.Previous Stage.TemplateRename := by
  decide

lemma handle_key_stay_or_quit (s : DateSelectionStage) (k : KeyEvent)
    (r : DateSelectionStage × StageTransition) (h : s.handle_key k = some r) :
    r.2 = StageTransition.Stay ∨ r.2 = StageTransition.Quit := by
  obtain ⟨code, kind⟩ := k
  cases kind with
  | Release =>
    simp [DateSelectionStage.handle_key] at h
    rw [← h]
    exact Or.inl rfl
  | Press =>
    cases code <;> simp [DateSelectionStage.handle_key] at h
    all_goals try split_ifs at h
    all_goals try simp at h
    all_goals first
      | (obtain ⟨a, ha, hh⟩ := h; rw [← hh]; exact Or.inl rfl)
      | (rw [← h]; exact Or.inl rfl)
      | (rw [← h]; exact Or.inr rfl)

/-- C7 (amended): in the DateSelection stage, Tab or `n` replaces the
selected date by the next month's and stays in the stage, BackTab or
`p` by the previous month's and stays; no key event ever yields an
advance to ConfirmRename or a retreat to TemplateRename (only `Stay`
and `Quit` transitions are produced). -/
theorem date_selection_month_keys (s : DateSelectionStage) (d₁ d₂ : Date)
    (h₁ : next_month s.selected_date = some d₁)
    (h₂ : prev_month s.selected_date = some d₂) :
    s.handle_key ⟨KeyCode.Tab, KeyEventKind.Press⟩ =
      some ({ s with selected_date := d₁ }, StageTransition.Stay) ∧
    s.handle_key ⟨KeyCode.Char 'n', KeyEventKind.Press⟩ =
      some ({ s with selected_date := d₁ }, StageTransition.Stay) ∧
    s.handle_key ⟨KeyCode.BackTab, KeyEventKind.Press⟩ =
      some ({ s with selected_date := d₂ }, StageTransition.Stay) ∧
    s.handle_key ⟨KeyCode.Char 'p', KeyEventKind.Press⟩ =
      some ({ s with selected_date := d₂ }, StageTransition.Stay) ∧
    ∀ k r, s.handle_key k = some r →
      r.2 ≠ StageTransition.Next Stage.ConfirmRename ∧
      r.2 ≠ StageTransition.Previous Stage.TemplateRename := by
  refine ⟨?_, ?_, ?_, ?_, ?_⟩
  · simp [DateSelectionStage.handle_key, h₁]
  · simp [DateSelectionStage.handle_key, h₁]
  · simp [DateSelectionStage.handle_key, h₂]
  · simp [DateSelectionStage.handle_key, h₂]
  · intro k r h
    rcases handle_key_stay_or_quit s k r h with hh | hh <;> rw [hh] <;>
      exact ⟨by decide, by decide⟩

/-- Witness for C7 (amended) on 2025-01-15. -/
theorem date_selection_month_keys_witness :
    (DateSelectionStage.handle_key ⟨⟨2025, 1, 15⟩, []⟩ ⟨KeyCode.Tab, KeyEventKind.Press⟩ =
      some (⟨⟨2025, 2, 15⟩, []⟩, StageTransition.Stay)) ∧
    (DateSelectionStage.handle_key ⟨⟨2025, 1, 15⟩, []⟩ ⟨KeyCode.Char 'n', KeyEventKind.Press⟩ =
      some (⟨⟨2025, 2, 15⟩, []⟩, StageTransition.Stay)) ∧
    (DateSelectionStage.handle_key ⟨⟨2025, 1, 15⟩, []⟩ ⟨KeyCode.BackTab, KeyEventKind.Press⟩ =
      some (⟨⟨2024, 12, 15⟩, []⟩, StageTransition.Stay)) ∧
    (DateSelectionStage.handle_key ⟨⟨2025, 1, 15⟩, []⟩ ⟨KeyCode.Char 'p', KeyEventKind.Press⟩ =
      some (⟨⟨2024, 12, 15⟩, []⟩, StageTransition.Stay)) ∧
    ∀ k r, DateSelectionStage.handle_key ⟨⟨2025, 1, 15⟩, []⟩ k = some r →
      r.2 ≠ StageTransition.Next Stage.ConfirmRename ∧
      r.2 ≠ StageTransition.Previous Stage.TemplateRename :=
  date_selection_month_keys ⟨⟨2025, 1, 15⟩, []⟩ ⟨2025, 2, 15⟩ ⟨2024, 12, 15⟩
    (by decide) (by decide)

lemma takeWhile_append_of_all {P : Char → Bool} {l r : Str} (h : ∀ x ∈ l, P x = true) :
    (l ++ r).takeWhile P = l ++ r.takeWhile P := by
  induction l with
  | nil => rfl
  | cons x xs ih =>
    have hx := h x (by simp)
    rw [List.cons_append, List.takeWhile_cons]
    simp only [hx, if_true]
    rw [List.cons_append, ih (fun y hy => h y (by simp [hy]))]

lemma dropWhile_append_of_all {P : Char → Bool} {l r : Str} (h : ∀ x ∈ l, P x = true) :
    (l ++ r).dropWhile P = r.dropWhile P := by
  induction l with
  | nil => rfl
  | cons x xs ih =>
    have hx := h x (by simp)
    rw [List.cons_append, List.dropWhile_cons]
    simp only [hx, if_true]
    exact ih (fun y hy => h y (by simp [hy]))

lemma takeWhile_dropWhile_nil {P : Char → Bool} {l : Str} :
    (l.dropWhile P).takeWhile P = [] := by
  induction l with
  | nil => rfl
  | cons x xs ih =>
    rw [List.dropWhile_cons]
    by_cases h : P x = true
    · simp only [h, if_true]
      exact ih
    · simp [List.takeWhile_cons, h]

lemma dropWhile_dropWhile {P : Char → Bool} {l : Str} :
    (l.dropWhile P).dropWhile P = l.dropWhile P := by
  induction l with
  | nil => rfl
  | cons x xs ih =>
    rw [List.dropWhile_cons]
    by_cases h : P x = true
    · simp only [h, if_true]
      exact ih
    · simp [List.dropWhile_cons, h]

lemma fileName_dirName_append (p n : Str) (hn : ∀ c ∈ n, (c != '/') = true) :
    fileName (dirName p ++ n) = n := by
  unfold fileName dirName
  rw [List.reverse_append, List.reverse_reverse,
    takeWhile_append_of_all (fun x hx => hn x (List.mem_reverse.mp hx)),
    takeWhile_dropWhile_nil]
  simp

lemma dirName_dirName_append (p n : Str) (hn : ∀ c ∈ n, (c != '/') = true) :
    dirName (dirName p ++ n) = dirName p := by
  unfold dirName
  rw [List.reverse_append, List.reverse_reverse,
    dropWhile_append_of_all (fun x hx => hn x (List.mem_reverse.mp hx)),
    dropWhile_dropWhile]

lemma mem_fileName_ne_slash (p : Str) : ∀ c ∈ fileName p, (c != '/') = true := by
  intro c hc
  unfold fileName at hc
  rw [List.mem_reverse] at hc
  have := List.mem_takeWhile_imp hc
  simpa using this

lemma mem_extension_ne_slash (f : SangerFilename) :
    ∀ c ∈ f.get_extension_name, (c != '/') = true := by
  intro c hc
  unfold SangerFilename.get_extension_name extOfBase at hc
  refine mem_fileName_ne_slash f.filename c ?_
  rcases h : rfindChar (fileName f.filename) '.' with _ | i
  · rw [h] at hc; simp at hc
  · rw [h] at hc
    by_cases h0 : i = 0
    · simp [h0] at hc
    · simp only [h0, if_false] at hc
      exact List.mem_of_mem_drop hc

/-- C5: the destination path computed by `move_to_standardized_name` lies
in the same directory as the source — only the final component changes —
its basename is the standardized name followed by `.` and the original
final extension, and a successful rename replaces exactly the source
path by that destination in the filesystem.  The hypotheses restrict to
paths whose final component is a plain name and to standardized names
without a path separator (labels never contain one unless an override
inserted it). -/
theorem move_to_standardized_name_same_directory (f : SangerFilename) (today : Date)
    (fs : FileSystem)
    (hbase : plainBaseName f.filename)
    (hstd : ∀ c ∈ f.get_standardized_name today, c ≠ '/') :
    dirName (f.standardized_path today) = dirName f.filename ∧
    fileName (f.standardized_path today) =
      f.get_standardized_name today ++ '.' :: f.get_extension_name ∧
    (∀ fs', f.move_to_standardized_name today fs = Except.ok fs' →
      fs'.files = f.standardized_path today :: fs.files.erase f.filename) := by
  have hall : ∀ c ∈ f.get_standardized_name today ++ '.' :: f.get_extension_name,
      (c != '/') = true := by
    intro c hc
    rw [List.mem_append] at hc
    rcases hc with hc | hc
    · exact bne_iff_ne.mpr (hstd c hc)
    · rw [List.mem_cons] at hc
      rcases hc with hc | hc
      · rw [hc]; decide
      · exact mem_extension_ne_slash f c hc
  have hpath : f.standardized_path today =
      dirName f.filename ++ (f.get_standardized_name today ++ '.' :: f.get_extension_name) := by
    unfold SangerFilename.standardized_path withFileName
    rw [List.append_assoc]
  refine ⟨?_, ?_, ?_⟩
  · rw [hpath]
    exact dirName_dirName_append f.filename _ hall
  · rw [hpath]
    exact fileName_dirName_append f.filename _ hall
  · intro fs' h
    unfold SangerFilename.move_to_standardized_name fsRename at h
    split_ifs at h
    all_goals cases h
    rfl

def c5File : SangerFilename :=
  (SangerFilename.new (("/data/run1/a[A].ab1").toList) Vendor.Sangon).set_date ⟨2025, 6, 1⟩

def c5Fs : FileSystem := ⟨[("/data/run1/a[A].ab1").toList], []⟩

/-- Witness for C5 at a concrete path and filesystem. -/
theorem move_to_standardized_name_same_directory_witness :
    dirName (c5File.standardized_path ⟨2030, 1, 2⟩) = dirName c5File.filename ∧
    fileName (c5File.standardized_path ⟨2030, 1, 2⟩) =
      c5File.get_standardized_name ⟨2030, 1, 2⟩ ++ '.' :: c5File.get_extension_name ∧
    (∀ fs', c5File.move_to_standardized_name ⟨2030, 1, 2⟩ c5Fs = Except.ok fs' →
      fs'.files = c5File.standardized_path ⟨2030, 1, 2⟩ :: c5Fs.files.erase c5File.filename) :=
  move_to_standardized_name_same_directory c5File ⟨2030, 1, 2⟩ c5Fs (by decide) (by decide)

/-- C6: the batch commit reports one outcome per registry entry, in
order — a failing move is recorded against exactly its own entry, and
the remaining entries are processed on the unchanged filesystem exactly
as they would have been without the failing entry. -/
theorem commit_reports_every_entry (today : Date) (fs : FileSystem)
    (l : List SangerFilename) :
    ((commitRegistry today fs l).1.map Prod.fst = l) ∧
    (∀ f rest e, f.move_to_standardized_name today fs = Except.error e →
      (commitRegistry today fs (f :: rest)).1 =
        (f, Except.error e) :: (commitRegistry today fs rest).1 ∧
      (commitRegistry today fs (f :: rest)).2 = (commitRegistry today fs rest).2) := by
  have h1 : ∀ (fs : FileSystem) (l : List SangerFilename),
      (commitRegistry today fs l).1.map Prod.fst = l := by
    intro fs l
    induction l generalizing fs with
    | nil => rfl
    | cons f rest ih =>
      unfold commitRegistry
      cases hm : f.move_to_standardized_name today fs with
      | ok fs' => simp [ih fs']
      | error e => simp [ih fs]
  refine ⟨h1 fs l, ?_⟩
  intro f rest e he
  constructor <;> simp [commitRegistry, he]

instance {ε α : Type} [DecidableEq ε] [DecidableEq α] : DecidableEq (Except ε α) := fun x y =>
  match x, y with
  | Except.ok a, Except.ok b =>
    if h : a = b then isTrue (by rw [h]) else isFalse (by intro hh; cases hh; exact h rfl)
  | Except.error a, Except.error b =>
    if h : a = b then isTrue (by rw [h]) else isFalse (by intro hh; cases hh; exact h rfl)
  | Except.ok _, Except.error _ => isFalse (by intro hh; cases hh)
  | Except.error _, Except.ok _ => isFalse (by intro hh; cases hh)

def c6Today : Date := ⟨2030, 1, 2⟩

def c6File1 : SangerFilename :=
  (SangerFilename.new (("/ro/a[A].ab1").toList) Vendor.Sangon).set_date ⟨2025, 6, 1⟩

def c6File2 : SangerFilename :=
  (SangerFilename.new (("/ok/b[B].ab1").toList) Vendor.Sangon).set_date ⟨2025, 6, 1⟩

/-- The §8 scenario: two files, the first in a directory without write
permission. -/
def c6Fs : FileSystem :=
  ⟨[("/ro/a[A].ab1").toList, ("/ok/b[B].ab1").toList], [("/ro/").toList]⟩

/-- Witness for C6: the first file's failure is reported against that
entry while the second file's move still succeeds. -/
theorem commit_reports_every_entry_witness :
    ((commitRegistry c6Today c6Fs [c6File1, c6File2]).1 =
      (c6File1, Except.error (("permission denied").toList)) ::
        (commitRegistry c6Today c6Fs [c6File2]).1) ∧
    ((commitRegistry c6Today c6Fs [c6File2]).1.map Prod.fst = [c6File2]) ∧
    ((commitRegistry c6Today c6Fs [c6File2]).1 = [(c6File2, Except.ok ())]) :=
  ⟨((commit_reports_every_entry c6Today c6Fs [c6File1, c6File2]).2 c6File1 [c6File2]
      (("permission denied").toList) (by decide)).1,
   (commit_reports_every_entry c6Today c6Fs [c6File2]).1,
   by decide⟩
